import Mathlib

set_option linter.unusedVariables false
set_option autoImplicit false

/-! Shallow embedding of the flux release-engine core: the
`ReleaseContext` operations of `src/release/context.go` (`WriteUpdates`,
`SelectServices`, `FindDefinedServices`, `ServicesWithPolicies`) and the
update-images HTTP handler of `src/service/http/server.go`.

Collaborators that context.go calls through interfaces (the cluster's
`SomeControllers`, the manifests view's `FindDefinedServices` enumeration,
the spec parsers and the service behind the HTTP handler) are passed in as
parameters; the small pieces of the `update` package that context.go uses
but that are not among the source files (`ControllerUpdate.Filter`, the
release-status constants, `NotInCluster`) are modelled from the spec and
marked as such. -/

/-- flux.ResourceID: the (namespace, kind, name) identity triple. -/
structure ResourceID where
  ns : String
  kind : String
  name : String
deriving DecidableEq, Repr

/-- update.ReleaseStatus is a string type in the source
(`fr.Status == ""` is a meaningful comparison in context.go line 104). -/
abbrev ReleaseStatus := String

/-- Modelled from the spec: the status constants of the `update` package
are not among the source files; the spec enumerates the statuses
SUCCESS, SKIPPED, IGNORED, FAILED. -/
def ReleaseStatusSuccess : ReleaseStatus := "success"

def ReleaseStatusSkipped : ReleaseStatus := "skipped"

def ReleaseStatusIgnored : ReleaseStatus := "ignored"

def ReleaseStatusFailed : ReleaseStatus := "failed"

/-- Modelled from the spec: the `update.NotInCluster` reason string is not
among the source files; the spec gives the reason as "not in cluster". -/
def NotInCluster : String := "not in cluster"

/-- update.ControllerResult: the per-workload verdict (status, reason)
recorded in a Result. -/
structure ControllerResult where
  status : ReleaseStatus
  error : String
deriving DecidableEq, Repr

/-- cluster.Controller: a workload reported running by the cluster. Its
payload beyond the ID used for correlation is opaque to context.go. -/
structure Controller where
  id : ResourceID
  payload : String
deriving DecidableEq, Repr

/-- update.ControllerUpdate: per-workload working state of a release,
seeded with (resourceID, manifestPath, manifestBytes) by
FindDefinedServices; the live snapshot is attached by SelectServices. -/
structure ControllerUpdate where
  resourceID : ResourceID
  manifestPath : String
  manifestBytes : String
  controller : Option Controller
deriving DecidableEq, Repr

/-- update.ControllerFilter: a per-workload predicate producing a verdict. -/
abbrev ControllerFilter := ControllerUpdate → ControllerResult

/-- Modelled from the spec: `ControllerUpdate.Filter` of the `update`
package is not among the source files. Per the spec, "the pipeline applies
filters in the order given; the first filter that returns a non-success
verdict wins. Success verdicts pass through." When every filter returns
SUCCESS the zero ControllerResult (empty status) results, which
SelectServices (context.go line 104) treats as success alongside
ReleaseStatusSuccess. -/
def ControllerUpdate.runFilters (u : ControllerUpdate) : List ControllerFilter → ControllerResult
  | [] => { status := "", error := "" }
  | f :: rest =>
    let fr := f u
    if fr.status = ReleaseStatusSuccess then u.runFilters rest else fr

/-- The first filter verdict, in pipeline order, whose status is not
SUCCESS (the spec's description of the pipeline's winning verdict). -/
def firstNonSuccess (filters : List ControllerFilter) (u : ControllerUpdate) :
    Option ControllerResult :=
  (filters.find? (fun f => decide ((f u).status ≠ ReleaseStatusSuccess))).map (fun f => f u)

/-- The repository checkout's files: a path maps to (mode, bytes) when the
file exists. -/
abbrev FileSystem := String → Option (Nat × String)

def FileSystem.setFile (fs : FileSystem) (p : String) (v : Nat × String) : FileSystem :=
  fun q => if q = p then some v else fs q

/-- Errors surfaced by ReleaseContext read operations. -/
inductive RCError where
  | readFileErr (path : String)
  | multipleResourceFiles (id : ResourceID) (paths : List String)
  | clusterErr (msg : String)
deriving DecidableEq, Repr

/-- ioutil.ReadFile against the embedded checkout. -/
def readFile (fs : FileSystem) (p : String) : Except RCError String :=
  match fs p with
  | some mb => .ok mb.2
  | none => .error (.readFileErr p)

/-- ReleaseContext.FindDefinedServices (context.go lines 129-155): walk
the manifest enumeration (resource ID to list of file paths); a resource
with exactly one path is read into a seeded ControllerUpdate; any other
number of paths fails the whole call with the multiple-resource-files
error. `entries` stands for the map returned by
`rc.manifests.FindDefinedServices(rc.repo.ManifestDir())`. -/
def findDefinedServices (entries : List (ResourceID × List String)) (fs : FileSystem) :
    Except RCError (List ControllerUpdate) :=
  match entries with
  | [] => .ok []
  | (id, paths) :: rest =>
    match paths with
    | [p] => do
      let bytes ← readFile fs p
      let tail ← findDefinedServices rest fs
      .ok ({ resourceID := id, manifestPath := p, manifestBytes := bytes,
             controller := none } :: tail)
    | _ => .error (.multipleResourceFiles id paths)

/-- update.Result: the mutable map from workload ID to verdict that
SelectServices fills in. -/
abbrev Result := ResourceID → Option ControllerResult

def Result.set (r : Result) (id : ResourceID) (cr : ControllerResult) : Result :=
  fun i => if i = id then some cr else r i

/-- The `definedMap` of SelectServices: a Go map from resource ID to
seeded update, as an association list whose later insertions overwrite. -/
abbrev DefinedMap := List (ResourceID × ControllerUpdate)

def DefinedMap.insertOv (m : DefinedMap) (id : ResourceID) (u : ControllerUpdate) : DefinedMap :=
  m.filter (fun p => decide (p.1 ≠ id)) ++ [(id, u)]

def DefinedMap.eraseKey (m : DefinedMap) (id : ResourceID) : DefinedMap :=
  m.filter (fun p => decide (p.1 ≠ id))

def DefinedMap.lookupKey (m : DefinedMap) (id : ResourceID) : Option ControllerUpdate :=
  (m.find? (fun p => decide (p.1 = id))).map (fun p => p.2)

/-- The `definedMap` build loop of SelectServices (context.go lines
74-78): successive Go map assignments keyed by resource ID. -/
def buildDefinedMap (defined : List ControllerUpdate) : DefinedMap :=
  defined.foldl (fun m s => m.insertOv s.resourceID s) []

/-- SelectServices' defined-vs-running correlation (context.go lines
86-97): running services found in the defined map get the live snapshot
attached and join `updates`; matched entries are deleted from the map;
running services with no defined counterpart are skipped. -/
def correlate : List Controller → DefinedMap → List ControllerUpdate × DefinedMap
  | [], m => ([], m)
  | s :: rest, m =>
    match m.lookupKey s.id with
    | none => correlate rest m
    | some u =>
      let u' := { u with controller := some s }
      let (ups, m') := correlate rest (m.eraseKey s.id)
      (u' :: ups, m')

/-- SelectServices' first filter loop (context.go lines 99-107): every
update's verdict is recorded in the results; updates whose verdict has
status SUCCESS or the empty status are kept. -/
def filterUpdates (filters : List ControllerFilter) :
    List ControllerUpdate → Result → List ControllerUpdate × Result
  | [], res => ([], res)
  | u :: rest, res =>
    let fr := u.runFilters filters
    let res1 := res.set u.resourceID fr
    let (keep, res2) := filterUpdates filters rest res1
    if fr.status = ReleaseStatusSuccess ∨ fr.status = "" then (u :: keep, res2)
    else (keep, res2)

/-- SelectServices' missing-services loop (context.go lines 109-117):
every remaining defined service's verdict is recorded; those whose
verdict is not IGNORED are collected into `filteredDefined`. -/
def filterMissing (filters : List ControllerFilter) :
    DefinedMap → Result → DefinedMap × Result
  | [], res => ([], res)
  | (k, u) :: rest, res =>
    let fr := u.runFilters filters
    let res1 := res.set u.resourceID fr
    let (keep, res2) := filterMissing filters rest res1
    if fr.status ≠ ReleaseStatusIgnored then ((k, u) :: keep, res2)
    else (keep, res2)

/-- SelectServices' final loop (context.go lines 119-125): everything left
in `filteredDefined` is overwritten as SKIPPED / "not in cluster". -/
def markSkipped : DefinedMap → Result → Result
  | [], res => res
  | (id, _) :: rest, res =>
    markSkipped rest (res.set id { status := ReleaseStatusSkipped, error := NotInCluster })

/-- The body of SelectServices after FindDefinedServices succeeded
(context.go lines 73-126). `ctrl` stands for the cluster's
`SomeControllers`. -/
def selectDefined (defined : List ControllerUpdate)
    (ctrl : List ResourceID → Except RCError (List Controller))
    (filters : List ControllerFilter) (results : Result) :
    Except RCError (List ControllerUpdate × Result) := do
  let ids := defined.map (fun s => s.resourceID)
  let definedMap := buildDefinedMap defined
  let services ← ctrl ids
  let (updates, remaining) := correlate services definedMap
  let (filteredUpdates, res1) := filterUpdates filters updates results
  let (filteredDefined, res2) := filterMissing filters remaining res1
  let res3 := markSkipped filteredDefined res2
  .ok (filteredUpdates, res3)

/-- ReleaseContext.SelectServices (context.go lines 67-127). -/
def selectServices (entries : List (ResourceID × List String)) (fs : FileSystem)
    (ctrl : List ResourceID → Except RCError (List Controller))
    (filters : List ControllerFilter) (results : Result) :
    Except RCError (List ControllerUpdate × Result) := do
  let defined ← findDefinedServices entries fs
  selectDefined defined ctrl filters results

/-- The error WriteUpdates surfaces: os.Stat failing on a manifest path. -/
inductive WriteError where
  | statErr (path : String)
deriving DecidableEq, Repr

/-- ReleaseContext.WriteUpdates (context.go lines 41-57): for each update
in order, stat the manifest path and overwrite the file with the update's
bytes keeping the stat-ed mode; the first stat failure aborts, leaving
the files already written in place. The returned FileSystem is the
checkout as it stands when the call returns. -/
def writeUpdates : List ControllerUpdate → FileSystem → Except WriteError Unit × FileSystem
  | [], fs => (.ok (), fs)
  | u :: rest, fs =>
    match fs u.manifestPath with
    | none => (.error (.statErr u.manifestPath), fs)
    | some mb => writeUpdates rest (fs.setFile u.manifestPath (mb.1, u.manifestBytes))

/-! Lock-discipline instrumentation: each ReleaseContext operation is
paired with the sequence of lock and checkout-access events it performs,
in program order (the Go defer runs the unlock on every return path). -/

inductive Ev where
  | rlock
  | runlock
  | wlock
  | wunlock
  | readEv (path : String)
  | writeEv (path : String)
deriving DecidableEq, Repr

inductive LockState where
  | free
  | rlocked
  | wlocked
deriving DecidableEq, Repr

/-- One step of the lock-discipline automaton: reads need the shared or
the exclusive lock, writes need the exclusive lock, locks are taken only
when free and released only when held. -/
def evStep : LockState → Ev → Option LockState
  | .free, .rlock => some .rlocked
  | .free, .wlock => some .wlocked
  | .rlocked, .runlock => some .free
  | .wlocked, .wunlock => some .free
  | .rlocked, .readEv _ => some .rlocked
  | .wlocked, .readEv _ => some .wlocked
  | .wlocked, .writeEv _ => some .wlocked
  | _, _ => none

/-- A trace is disciplined when the automaton accepts it starting and
ending in the unlocked state. -/
def disciplined (t : List Ev) : Bool :=
  decide ((t.foldl (fun st e => st.bind (fun s => evStep s e)) (some .free)) = some .free)

/-- The checkout reads FindDefinedServices performs between its lock and
unlock: the manifest enumeration happens first (modelled as reading the
manifest directory by the caller), then each singleton path is read until
the first failure; a non-singleton entry stops the walk with the
multiple-resource-files error. -/
def findDefinedReads (fs : FileSystem) : List (ResourceID × List String) → List Ev
  | [] => []
  | (id, paths) :: rest =>
    match paths with
    | [p] =>
      .readEv p ::
        (match fs p with
         | some _ => findDefinedReads fs rest
         | none => [])
    | _ => []

/-- ReleaseContext.FindDefinedServices with its event trace (context.go
lines 129-155): RLock on entry, deferred RUnlock on every return path. -/
def findDefinedServicesEv (entries : List (ResourceID × List String)) (fs : FileSystem)
    (dir : String) : Except RCError (List ControllerUpdate) × List Ev :=
  (findDefinedServices entries fs,
    .rlock :: .readEv dir :: (findDefinedReads fs entries ++ [.runlock]))

/-- The stat/write events WriteUpdates performs between Lock and Unlock:
for each update a stat (a read of the checkout) and, when the file
exists, the overwrite; the walk stops at the first stat failure. -/
def writeUpdatesEvents (fs : FileSystem) : List ControllerUpdate → List Ev
  | [] => []
  | u :: rest =>
    .readEv u.manifestPath ::
      (match fs u.manifestPath with
       | none => []
       | some mb =>
         .writeEv u.manifestPath ::
           writeUpdatesEvents (fs.setFile u.manifestPath (mb.1, u.manifestBytes)) rest)

/-- ReleaseContext.WriteUpdates with its event trace (context.go lines
41-57): Lock on entry, deferred Unlock on every return path. -/
def writeUpdatesEv (updates : List ControllerUpdate) (fs : FileSystem) :
    (Except WriteError Unit × FileSystem) × List Ev :=
  (writeUpdates updates fs, .wlock :: (writeUpdatesEvents fs updates ++ [.wunlock]))

/-- ReleaseContext.ServicesWithPolicies with its event trace (context.go
lines 158-162): the manifests view's read of the checkout happens under
the shared lock. `swp` stands for `rc.manifests.ServicesWithPolicies`. -/
def servicesWithPoliciesEv {α : Type} (swp : String → α) (dir : String) : α × List Ev :=
  (swp dir, [.rlock, .readEv dir, .runlock])

/-! The update-images HTTP handler (src/service/http/server.go lines
159-215). The spec parsers live outside the source files, so they are
parameters; the handler's control flow is what is embedded. -/

/-- update.ResourceSpec, update.ImageSpec and update.ReleaseKind are
string types in the source. -/
abbrev ResourceSpec := String

abbrev ImageSpec := String

abbrev ReleaseKind := String

structure ReleaseSpec where
  serviceSpecs : List ResourceSpec
  imageSpec : ImageSpec
  kind : ReleaseKind
  excludes : List ResourceID
deriving DecidableEq, Repr

structure Cause where
  user : String
  message : String
deriving DecidableEq, Repr

/-- The parsers the handler calls; each is repository code outside the
given source files, so the handler is embedded over arbitrary parsers. -/
structure Parsers where
  parseResourceSpec : String → Except String ResourceSpec
  parseImageSpec : String → Except String ImageSpec
  parseReleaseKind : String → Except String ReleaseKind
  parseResourceID : String → Except String ResourceID

/-- The update-images request: route variables, form values and query
values, plus whether `r.ParseForm()` succeeds. -/
structure UpdateImagesRequest where
  formOk : Bool
  services : List String
  image : String
  kind : String
  excludes : List String
  user : String
  message : String

/-- What the handler writes back: a 400 user error from a parse failure,
the error response produced from the service's error (status chosen by
the transport from the error type), or the job ID as JSON. -/
inductive HandlerOutcome where
  | badRequest (msg : String)
  | errorResponse (msg : String)
  | ok (jobID : String)
deriving DecidableEq, Repr

def HandlerOutcome.statusCode : HandlerOutcome → Option Nat
  | .badRequest _ => some 400
  | .errorResponse _ => none
  | .ok _ => some 200

/-- Sequential parsing of a list of raw values, first failure wins, as in
the handler's service and exclude loops. -/
def parseAll {α : Type} (p : String → Except String α) : List String → Except String (List α)
  | [] => .ok []
  | s :: rest => do
    let a ← p s
    let as ← parseAll p rest
    .ok (a :: as)

/-- HTTPService.UpdateImages (server.go lines 159-215): parse the form,
every service spec, the image spec, the release kind and every exclude ID
in that order, answering 400 at the first failure; only when all parses
succeed call the service's UpdateImages with the assembled ReleaseSpec
and Cause. The second component records that call (and its arguments),
`none` when no job was submitted. -/
def updateImagesHandler (P : Parsers) (svc : ReleaseSpec → Cause → Except String String)
    (r : UpdateImagesRequest) : HandlerOutcome × Option (ReleaseSpec × Cause) :=
  if r.formOk = false then (.badRequest ("parsing form"), none)
  else
    match parseAll P.parseResourceSpec r.services with
    | .error e => (.badRequest e, none)
    | .ok specs =>
      match P.parseImageSpec r.image with
      | .error e => (.badRequest e, none)
      | .ok img =>
        match P.parseReleaseKind r.kind with
        | .error e => (.badRequest e, none)
        | .ok k =>
          match parseAll P.parseResourceID r.excludes with
          | .error e => (.badRequest e, none)
          | .ok exs =>
            let spec : ReleaseSpec :=
              { serviceSpecs := specs, imageSpec := img, kind := k, excludes := exs }
            let cause : Cause := { user := r.user, message := r.message }
            match svc spec cause with
            | .error e => (.errorResponse e, some (spec, cause))
            | .ok jobID => (.ok jobID, some (spec, cause))

/-! Small helpers for stating the claims over the Except results. -/

def exceptIsOk {ε α : Type} : Except ε α → Bool
  | .ok _ => true
  | .error _ => false

/-- The Result entry an (attempted) SelectServices run leaves for an ID;
`none` when the run failed. -/
def resultEntry (x : Except RCError (List ControllerUpdate × Result)) (id : ResourceID) :
    Option ControllerResult :=
  match x with
  | .ok pr => pr.2 id
  | .error _ => none

/-- The updates an (attempted) SelectServices run returns. -/
def updatesOf (x : Except RCError (List ControllerUpdate × Result)) : List ControllerUpdate :=
  match x with
  | .ok pr => pr.1
  | .error _ => []

/-! Concrete sample data used by witnesses and counterexamples. -/

def idA : ResourceID := { ns := "default", kind := "deployment", name := "a" }

def idB : ResourceID := { ns := "default", kind := "deployment", name := "b" }

def idC : ResourceID := { ns := "default", kind := "deployment", name := "c" }

def ctrlA : Controller := { id := idA, payload := "running" }

def ctrlB : Controller := { id := idB, payload := "running" }

def updA : ControllerUpdate :=
  { resourceID := idA, manifestPath := "a.yaml", manifestBytes := "manifest-a",
    controller := none }

def updB : ControllerUpdate :=
  { resourceID := idB, manifestPath := "b.yaml", manifestBytes := "manifest-b",
    controller := none }

def fsAB : FileSystem := fun p =>
  if p = "a.yaml" then some (420, "manifest-a")
  else if p = "b.yaml" then some (420, "manifest-b")
  else none

def emptyResult : Result := fun _ => none

def passFilter : ControllerFilter := fun _ => { status := ReleaseStatusSuccess, error := "" }

def ignoreFilter : ControllerFilter :=
  fun _ => { status := ReleaseStatusIgnored, error := "ignored by policy" }

def skipFilter : ControllerFilter := fun _ => { status := ReleaseStatusSkipped, error := "locked" }

def failFilter : ControllerFilter :=
  fun _ => { status := ReleaseStatusFailed, error := "no image satisfies pattern" }

def clusterNone : List ResourceID → Except RCError (List Controller) := fun _ => .ok []

def clusterA : List ResourceID → Except RCError (List Controller) := fun _ => .ok [ctrlA]

def clusterB : List ResourceID → Except RCError (List Controller) := fun _ => .ok [ctrlB]

def clusterAB : List ResourceID → Except RCError (List Controller) :=
  fun _ => .ok [ctrlA, ctrlB]

def okParsers : Parsers :=
  { parseResourceSpec := fun s => .ok s
    parseImageSpec := fun s => .ok s
    parseReleaseKind := fun s => .ok s
    parseResourceID := fun _ => .ok idA }

def failImageParsers : Parsers :=
  { okParsers with parseImageSpec := fun s => .error s }

def svcOk : ReleaseSpec → Cause → Except String String := fun _ _ => .ok "job-1"

def reqSample : UpdateImagesRequest :=
  { formOk := true
    services := ["default:deployment/a"]
    image := "alpine:latest"
    kind := "plan"
    excludes := []
    user := "u"
    message := "m" }

def specSample : ReleaseSpec :=
  { serviceSpecs := ["default:deployment/a"]
    imageSpec := "alpine:latest"
    kind := "plan"
    excludes := [] }

def causeSample : Cause := { user := "u", message := "m" }

/-! ### Lemmas about the filter pipeline and the result map -/

theorem Result.set_apply (r : Result) (id j : ResourceID) (cr : ControllerResult) :
    Result.set r id cr j = if j = id then some cr else r j := rfl

/-- The modelled pipeline verdict is the first non-SUCCESS filter verdict,
with the zero ControllerResult as the all-pass fallthrough. -/
theorem runFilters_eq_firstNonSuccess (u : ControllerUpdate) (filters : List ControllerFilter) :
    u.runFilters filters = (firstNonSuccess filters u).getD { status := "", error := "" } := by
  induction filters with
  | nil => simp [ControllerUpdate.runFilters, firstNonSuccess]
  | cons f rest ih =>
    by_cases h : (f u).status = ReleaseStatusSuccess
    · simp [ControllerUpdate.runFilters, firstNonSuccess, List.find?, h] at ih ⊢
      exact ih
    · simp [ControllerUpdate.runFilters, firstNonSuccess, List.find?, h]

theorem filterUpdates_cons (filters : List ControllerFilter) (u : ControllerUpdate)
    (rest : List ControllerUpdate) (res : Result) :
    filterUpdates filters (u :: rest) res =
      (if (u.runFilters filters).status = ReleaseStatusSuccess ∨
          (u.runFilters filters).status = "" then
        u :: (filterUpdates filters rest (res.set u.resourceID (u.runFilters filters))).1
       else (filterUpdates filters rest (res.set u.resourceID (u.runFilters filters))).1,
       (filterUpdates filters rest (res.set u.resourceID (u.runFilters filters))).2) := by
  simp only [filterUpdates]
  split <;> rfl

theorem filterMissing_cons (filters : List ControllerFilter) (k : ResourceID)
    (u : ControllerUpdate) (rest : DefinedMap) (res : Result) :
    filterMissing filters ((k, u) :: rest) res =
      (if (u.runFilters filters).status ≠ ReleaseStatusIgnored then
        (k, u) :: (filterMissing filters rest (res.set u.resourceID (u.runFilters filters))).1
       else (filterMissing filters rest (res.set u.resourceID (u.runFilters filters))).1,
       (filterMissing filters rest (res.set u.resourceID (u.runFilters filters))).2) := by
  simp only [filterMissing]
  split <;> rfl

/-! ### Lemmas about the definedMap association list -/

theorem insertOv_mem {m : DefinedMap} {id : ResourceID} {u : ControllerUpdate}
    {p : ResourceID × ControllerUpdate} (h : p ∈ m.insertOv id u) :
    p ∈ m ∨ p = (id, u) := by
  simp only [DefinedMap.insertOv, List.mem_append, List.mem_singleton] at h
  rcases h with h | h
  · exact Or.inl (List.mem_of_mem_filter h)
  · exact Or.inr h

theorem insertOv_key_mem {m : DefinedMap} {id k : ResourceID} {u : ControllerUpdate}
    (h : k ∈ m.map (fun p => p.1) ∨ k = id) :
    k ∈ (m.insertOv id u).map (fun p => p.1) := by
  simp only [DefinedMap.insertOv, List.map_append, List.mem_append]
  rcases h with h | rfl
  · by_cases hk : k = id
    · subst hk; right; simp
    · left
      obtain ⟨p, hp, rfl⟩ := List.mem_map.mp h
      exact List.mem_map.mpr ⟨p, List.mem_filter.mpr ⟨hp, by simpa using hk⟩, rfl⟩
  · right; simp

theorem foldl_insertOv_mem {l : List ControllerUpdate} {acc : DefinedMap}
    {p : ResourceID × ControllerUpdate}
    (h : p ∈ l.foldl (fun m s => m.insertOv s.resourceID s) acc) :
    p ∈ acc ∨ ∃ u ∈ l, p = (u.resourceID, u) := by
  induction l generalizing acc with
  | nil => exact Or.inl h
  | cons v rest ih =>
    rcases ih (by simpa using h) with h' | h'
    · rcases insertOv_mem h' with h2 | h2
      · exact Or.inl h2
      · exact Or.inr ⟨v, List.mem_cons_self v rest, h2⟩
    · obtain ⟨u, hu, rfl⟩ := h'
      exact Or.inr ⟨u, List.mem_cons_of_mem v hu, rfl⟩

theorem foldl_insertOv_keys {l : List ControllerUpdate} {acc : DefinedMap} {k : ResourceID}
    (h : k ∈ acc.map (fun p => p.1) ∨ ∃ u ∈ l, u.resourceID = k) :
    k ∈ (l.foldl (fun m s => m.insertOv s.resourceID s) acc).map (fun p => p.1) := by
  induction l generalizing acc with
  | nil =>
    rcases h with h | ⟨u, hu, _⟩
    · exact h
    · cases hu
  | cons v rest ih =>
    apply ih
    rcases h with h | ⟨u, hu, hk⟩
    · exact Or.inl (insertOv_key_mem (Or.inl h))
    · rcases List.mem_cons.mp hu with rfl | hu'
      · exact Or.inl (insertOv_key_mem (Or.inr hk.symm))
      · exact Or.inr ⟨u, hu', hk⟩

theorem foldl_insertOv_eq_append {l : List ControllerUpdate} {acc : DefinedMap}
    (hd : ∀ p ∈ acc, ∀ u ∈ l, p.1 ≠ u.resourceID)
    (hn : (l.map (fun u => u.resourceID)).Nodup) :
    l.foldl (fun m s => m.insertOv s.resourceID s) acc =
      acc ++ l.map (fun u => (u.resourceID, u)) := by
  induction l generalizing acc with
  | nil => simp
  | cons v rest ih =>
    have hnd : v.resourceID ∉ rest.map (fun u => u.resourceID) ∧
        (rest.map (fun u => u.resourceID)).Nodup := by
      rw [List.map_cons, List.nodup_cons] at hn
      exact hn
    have hacc : acc.filter (fun p => decide (p.1 ≠ v.resourceID)) = acc := by
      rw [List.filter_eq_self]
      intro p hp
      simpa using hd p hp v (List.mem_cons_self v rest)
    have hstep : acc.insertOv v.resourceID v = acc ++ [(v.resourceID, v)] := by
      show acc.filter (fun p => decide (p.1 ≠ v.resourceID)) ++ [(v.resourceID, v)] =
        acc ++ [(v.resourceID, v)]
      rw [hacc]
    simp only [List.foldl_cons, hstep]
    rw [ih ?_ hnd.2]
    · simp
    · intro p hp u hu
      rcases List.mem_append.mp hp with hp' | hp'
      · exact hd p hp' u (List.mem_cons_of_mem v hu)
      · have hpv : p = (v.resourceID, v) := by simpa using hp'
        subst hpv
        have he2 : (v.resourceID, v).1 = v.resourceID := rfl
        rw [he2]
        intro he
        exact hnd.1 (by rw [he]; exact List.mem_map.mpr ⟨u, hu, rfl⟩)

theorem buildMap_eq_map {defined : List ControllerUpdate}
    (hn : (defined.map (fun u => u.resourceID)).Nodup) :
    buildDefinedMap defined = defined.map (fun u => (u.resourceID, u)) := by
  rw [buildDefinedMap]
  simpa using @foldl_insertOv_eq_append defined ([] : DefinedMap) (by simp) hn

theorem lookupKey_eq_none_iff {m : DefinedMap} {k : ResourceID} :
    m.lookupKey k = none ↔ ∀ p ∈ m, p.1 ≠ k := by
  simp [DefinedMap.lookupKey, List.find?_eq_none]

theorem lookupKey_mem {m : DefinedMap} {k : ResourceID} {u : ControllerUpdate}
    (h : m.lookupKey k = some u) : (k, u) ∈ m := by
  simp only [DefinedMap.lookupKey, Option.map_eq_some'] at h
  obtain ⟨p, hp, rfl⟩ := h
  have hmem := List.mem_of_find?_eq_some hp
  have hkey : p.1 = k := by simpa using List.find?_some hp
  have : p = (k, p.2) := by rw [← hkey]
  rwa [← this]

theorem lookupKey_map_self {l : List ControllerUpdate} {u : ControllerUpdate}
    (hn : (l.map (fun v => v.resourceID)).Nodup) (hu : u ∈ l) :
    DefinedMap.lookupKey (l.map (fun v => (v.resourceID, v))) u.resourceID = some u := by
  induction l with
  | nil => cases hu
  | cons v rest ih =>
    have hv : v.resourceID ∉ rest.map (fun w => w.resourceID) :=
      (List.nodup_cons.mp (by simpa using hn)).1
    rcases List.mem_cons.mp hu with rfl | hu'
    · simp [DefinedMap.lookupKey, List.find?_cons]
    · have hne : v.resourceID ≠ u.resourceID := by
        intro he
        exact hv (he ▸ List.mem_map.mpr ⟨u, hu', rfl⟩)
      have ih' := ih (List.nodup_cons.mp (by simpa using hn)).2 hu'
      simp only [List.map_cons, DefinedMap.lookupKey, List.find?_cons] at ih' ⊢
      simpa [hne] using ih'

theorem lookupKey_cons (p : ResourceID × ControllerUpdate) (rest : DefinedMap)
    (j : ResourceID) :
    DefinedMap.lookupKey (p :: rest) j =
      if p.1 = j then some p.2 else DefinedMap.lookupKey rest j := by
  by_cases h : p.1 = j <;> simp [DefinedMap.lookupKey, List.find?_cons, h]

theorem eraseKey_cons (p : ResourceID × ControllerUpdate) (rest : DefinedMap)
    (k : ResourceID) :
    DefinedMap.eraseKey (p :: rest) k =
      if p.1 = k then DefinedMap.eraseKey rest k else p :: DefinedMap.eraseKey rest k := by
  by_cases h : p.1 = k <;> simp [DefinedMap.eraseKey, List.filter_cons, h]

theorem lookupKey_erase_ne {m : DefinedMap} {k j : ResourceID} (h : j ≠ k) :
    (m.eraseKey k).lookupKey j = m.lookupKey j := by
  induction m with
  | nil => rfl
  | cons p rest ih =>
    rw [eraseKey_cons, lookupKey_cons]
    by_cases hp : p.1 = k
    · have hpj : ¬(p.1 = j) := by rw [hp]; exact fun he => h he.symm
      simp [hp, hpj, ih, Ne.symm h]
    · rw [if_neg hp, lookupKey_cons]
      by_cases hpj : p.1 = j
      · simp [hpj]
      · simp [hpj, ih]

theorem eraseKey_mem {m : DefinedMap} {k : ResourceID} {p : ResourceID × ControllerUpdate}
    (h : p ∈ m.eraseKey k) : p ∈ m ∧ p.1 ≠ k := by
  have := List.mem_filter.mp h
  exact ⟨this.1, by simpa using this.2⟩

theorem eraseKey_mem_intro {m : DefinedMap} {k : ResourceID} {p : ResourceID × ControllerUpdate}
    (hp : p ∈ m) (hne : p.1 ≠ k) : p ∈ m.eraseKey k :=
  List.mem_filter.mpr ⟨hp, by simpa using hne⟩

/-! ### Lemmas about the defined-vs-running correlation -/

theorem correlate_cons_none {s : Controller} {rest : List Controller} {m : DefinedMap}
    (h : m.lookupKey s.id = none) :
    correlate (s :: rest) m = correlate rest m := by
  simp [correlate, h]

theorem correlate_cons_some {s : Controller} {rest : List Controller} {m : DefinedMap}
    {u : ControllerUpdate} (h : m.lookupKey s.id = some u) :
    correlate (s :: rest) m =
      ({ u with controller := some s } :: (correlate rest (m.eraseKey s.id)).1,
        (correlate rest (m.eraseKey s.id)).2) := by
  simp [correlate, h]

theorem correlate_snd_eq (services : List Controller) (m : DefinedMap) :
    (correlate services m).2 =
      m.filter (fun p => decide (p.1 ∉ services.map (fun s => s.id))) := by
  induction services generalizing m with
  | nil =>
    show m = _
    rw [eq_comm, List.filter_eq_self]
    intro p _
    simp
  | cons s rest ih =>
    cases h : m.lookupKey s.id with
    | none =>
      rw [correlate_cons_none h, ih]
      apply List.filter_congr
      intro p hp
      have hne : p.1 ≠ s.id := (lookupKey_eq_none_iff.mp h) p hp
      simp [List.mem_cons, hne]
    | some u =>
      rw [correlate_cons_some h]
      show (correlate rest (m.eraseKey s.id)).2 = _
      rw [ih, DefinedMap.eraseKey, List.filter_filter]
      apply List.filter_congr
      intro p hp
      by_cases h1 : p.1 = s.id <;>
        by_cases h2 : p.1 ∈ rest.map (fun t => t.id) <;>
          simp [List.mem_cons, h1, h2]

theorem correlate_fst_ids {services : List Controller} {m : DefinedMap}
    (hInv : ∀ p ∈ m, p.2.resourceID = p.1) :
    ∀ v ∈ (correlate services m).1,
      v.resourceID ∈ services.map (fun s => s.id) ∧ v.resourceID ∈ m.map (fun p => p.1) := by
  induction services generalizing m with
  | nil => intro v hv; simp [correlate] at hv
  | cons s rest ih =>
    intro v hv
    cases h : m.lookupKey s.id with
    | none =>
      rw [correlate_cons_none h] at hv
      obtain ⟨h1, h2⟩ := ih hInv v hv
      exact ⟨by simp only [List.map_cons, List.mem_cons]; exact Or.inr h1, h2⟩
    | some u =>
      rw [correlate_cons_some h] at hv
      have hm := lookupKey_mem h
      rcases List.mem_cons.mp hv with rfl | hv'
      · have hq : u.resourceID = s.id := hInv (s.id, u) hm
        constructor
        · show u.resourceID ∈ _
          simp [hq]
        · show u.resourceID ∈ _
          exact List.mem_map.mpr ⟨(s.id, u), hm, hq.symm⟩
      · have hInv' : ∀ p ∈ m.eraseKey s.id, p.2.resourceID = p.1 :=
          fun p hp => hInv p (eraseKey_mem hp).1
        obtain ⟨h1, h2⟩ := ih hInv' v hv'
        refine ⟨by simp only [List.map_cons, List.mem_cons]; exact Or.inr h1, ?_⟩
        obtain ⟨p, hp, he⟩ := List.mem_map.mp h2
        exact List.mem_map.mpr ⟨p, (eraseKey_mem hp).1, he⟩

theorem correlate_covers {services : List Controller} {m : DefinedMap} {k : ResourceID}
    (hInv : ∀ p ∈ m, p.2.resourceID = p.1) (hk : k ∈ m.map (fun p => p.1)) :
    k ∈ (correlate services m).1.map (fun v => v.resourceID) ∨
      k ∈ (correlate services m).2.map (fun p => p.1) := by
  induction services generalizing m with
  | nil => right; simpa [correlate] using hk
  | cons s rest ih =>
    cases h : m.lookupKey s.id with
    | none => rw [correlate_cons_none h]; exact ih hInv hk
    | some u =>
      rw [correlate_cons_some h]
      by_cases hks : k = s.id
      · left
        subst hks
        have hu : u.resourceID = s.id := hInv (s.id, u) (lookupKey_mem h)
        simp only [List.map_cons, List.mem_cons]
        left
        exact hu.symm
      · have hInv' : ∀ p ∈ m.eraseKey s.id, p.2.resourceID = p.1 :=
          fun p hp => hInv p (eraseKey_mem hp).1
        have hk' : k ∈ (m.eraseKey s.id).map (fun p => p.1) := by
          obtain ⟨p, hp, he⟩ := List.mem_map.mp hk
          exact List.mem_map.mpr ⟨p, eraseKey_mem_intro hp (by rw [he]; exact hks), he⟩
        rcases ih hInv' hk' with hL | hR
        · left; simp only [List.map_cons, List.mem_cons]; exact Or.inr hL
        · right; exact hR

theorem correlate_fst_mem_intro {services : List Controller} {m : DefinedMap}
    {s : Controller} {u : ControllerUpdate}
    (hS : (services.map (fun t => t.id)).Nodup) (hs : s ∈ services)
    (h : m.lookupKey s.id = some u) :
    { u with controller := some s } ∈ (correlate services m).1 := by
  induction services generalizing m with
  | nil => cases hs
  | cons s0 rest ih =>
    have hnd : s0.id ∉ rest.map (fun t => t.id) ∧ (rest.map (fun t => t.id)).Nodup := by
      rw [List.map_cons, List.nodup_cons] at hS
      exact hS
    rcases List.mem_cons.mp hs with rfl | hs'
    · rw [correlate_cons_some h]
      exact List.mem_cons_self _ _
    · have hne : s.id ≠ s0.id := by
        intro he
        exact hnd.1 (he ▸ List.mem_map.mpr ⟨s, hs', rfl⟩)
      cases h0 : m.lookupKey s0.id with
      | none =>
        rw [correlate_cons_none h0]
        exact ih hnd.2 hs' h
      | some u0 =>
        rw [correlate_cons_some h0]
        apply List.mem_cons_of_mem
        apply ih hnd.2 hs'
        rw [lookupKey_erase_ne hne]
        exact h

theorem correlate_fst_nodup {services : List Controller} {m : DefinedMap}
    (hInv : ∀ p ∈ m, p.2.resourceID = p.1)
    (hS : (services.map (fun t => t.id)).Nodup) :
    ((correlate services m).1.map (fun v => v.resourceID)).Nodup := by
  induction services generalizing m with
  | nil => simp [correlate]
  | cons s rest ih =>
    have hnd : s.id ∉ rest.map (fun t => t.id) ∧ (rest.map (fun t => t.id)).Nodup := by
      rw [List.map_cons, List.nodup_cons] at hS
      exact hS
    cases h : m.lookupKey s.id with
    | none =>
      rw [correlate_cons_none h]
      exact ih hInv hnd.2
    | some u =>
      rw [correlate_cons_some h]
      have hInv' : ∀ p ∈ m.eraseKey s.id, p.2.resourceID = p.1 :=
        fun p hp => hInv p (eraseKey_mem hp).1
      have hq : u.resourceID = s.id := hInv (s.id, u) (lookupKey_mem h)
      rw [List.map_cons, List.nodup_cons]
      refine ⟨?_, ih hInv' hnd.2⟩
      intro hmem
      obtain ⟨v, hv, he⟩ := List.mem_map.mp hmem
      have hsub := (correlate_fst_ids hInv' v hv).1
      apply hnd.1
      have : v.resourceID = s.id := by rw [he]; exact hq
      rw [← this]
      exact hsub

/-! ### Lemmas about the three result-recording loops -/

theorem filterUpdates_fst (filters : List ControllerFilter) (l : List ControllerUpdate)
    (res : Result) :
    (filterUpdates filters l res).1 =
      l.filter (fun u => decide ((u.runFilters filters).status = ReleaseStatusSuccess ∨
        (u.runFilters filters).status = "")) := by
  induction l generalizing res with
  | nil => rfl
  | cons u rest ih =>
    rw [filterUpdates_cons, List.filter_cons]
    by_cases h : (u.runFilters filters).status = ReleaseStatusSuccess ∨
        (u.runFilters filters).status = ""
    · simp only [h, if_pos, decide_true_eq_true]
      simp [ih]
    · simp only [h, decide_false_eq_false]
      simp [ih, h]

theorem filterUpdates_snd_ne {filters : List ControllerFilter} {l : List ControllerUpdate}
    {j : ResourceID} (res : Result) (hj : ∀ u ∈ l, u.resourceID ≠ j) :
    (filterUpdates filters l res).2 j = res j := by
  induction l generalizing res with
  | nil => rfl
  | cons u rest ih =>
    rw [filterUpdates_cons]
    show (filterUpdates filters rest _).2 j = res j
    rw [ih _ fun v hv => hj v (List.mem_cons_of_mem u hv)]
    rw [Result.set_apply]
    rw [if_neg fun he => hj u (List.mem_cons_self u rest) he.symm]

theorem filterUpdates_snd_mem {filters : List ControllerFilter} {l : List ControllerUpdate}
    {u : ControllerUpdate} (res : Result) (hn : (l.map (fun v => v.resourceID)).Nodup)
    (hu : u ∈ l) :
    (filterUpdates filters l res).2 u.resourceID = some (u.runFilters filters) := by
  induction l generalizing res with
  | nil => cases hu
  | cons v rest ih =>
    have hnd : v.resourceID ∉ rest.map (fun w => w.resourceID) ∧
        (rest.map (fun w => w.resourceID)).Nodup := by
      rw [List.map_cons, List.nodup_cons] at hn
      exact hn
    rw [filterUpdates_cons]
    show (filterUpdates filters rest _).2 _ = _
    rcases List.mem_cons.mp hu with rfl | hu'
    · rw [filterUpdates_snd_ne _ ?_]
      · rw [Result.set_apply, if_pos rfl]
      · intro w hw he
        exact hnd.1 (he ▸ List.mem_map.mpr ⟨w, hw, rfl⟩)
    · exact ih _ hnd.2 hu'

theorem filterUpdates_snd_mono {filters : List ControllerFilter} {l : List ControllerUpdate}
    {j : ResourceID} (res : Result) (h : (res j).isSome = true) :
    ((filterUpdates filters l res).2 j).isSome = true := by
  induction l generalizing res with
  | nil => exact h
  | cons u rest ih =>
    rw [filterUpdates_cons]
    show ((filterUpdates filters rest _).2 j).isSome = true
    apply ih
    rw [Result.set_apply]
    by_cases he : j = u.resourceID
    · rw [if_pos he]; rfl
    · rw [if_neg he]; exact h

theorem filterUpdates_snd_isSome {filters : List ControllerFilter} {l : List ControllerUpdate}
    {u : ControllerUpdate} (res : Result) (hu : u ∈ l) :
    ((filterUpdates filters l res).2 u.resourceID).isSome = true := by
  induction l generalizing res with
  | nil => cases hu
  | cons v rest ih =>
    rw [filterUpdates_cons]
    show ((filterUpdates filters rest _).2 _).isSome = true
    rcases List.mem_cons.mp hu with rfl | hu'
    · apply filterUpdates_snd_mono
      rw [Result.set_apply, if_pos rfl]
      rfl
    · exact ih _ hu'

theorem filterMissing_fst (filters : List ControllerFilter) (m : DefinedMap) (res : Result) :
    (filterMissing filters m res).1 =
      m.filter (fun p => decide ((p.2.runFilters filters).status ≠ ReleaseStatusIgnored)) := by
  induction m generalizing res with
  | nil => rfl
  | cons p rest ih =>
    rw [show p = (p.1, p.2) from rfl, filterMissing_cons, List.filter_cons]
    by_cases h : (p.2.runFilters filters).status ≠ ReleaseStatusIgnored
    · simp only [h, if_pos, decide_true_eq_true]
      simp [ih, h]
    · simp only [h, decide_false_eq_false]
      simp [ih, h]

theorem filterMissing_snd_ne {filters : List ControllerFilter} {m : DefinedMap}
    {j : ResourceID} (res : Result) (hj : ∀ p ∈ m, p.2.resourceID ≠ j) :
    (filterMissing filters m res).2 j = res j := by
  induction m generalizing res with
  | nil => rfl
  | cons p rest ih =>
    rw [show p = (p.1, p.2) from rfl, filterMissing_cons]
    show (filterMissing filters rest _).2 j = res j
    rw [ih _ fun q hq => hj q (List.mem_cons_of_mem p hq)]
    rw [Result.set_apply]
    rw [if_neg fun he => hj p (List.mem_cons_self p rest) he.symm]

theorem filterMissing_snd_mem {filters : List ControllerFilter} {m : DefinedMap}
    {k : ResourceID} {u : ControllerUpdate} (res : Result)
    (hInv : ∀ p ∈ m, p.2.resourceID = p.1) (hn : (m.map (fun p => p.1)).Nodup)
    (hm : (k, u) ∈ m) :
    (filterMissing filters m res).2 k = some (u.runFilters filters) := by
  induction m generalizing res with
  | nil => cases hm
  | cons p rest ih =>
    have hnd : p.1 ∉ rest.map (fun q => q.1) ∧ (rest.map (fun q => q.1)).Nodup := by
      rw [List.map_cons, List.nodup_cons] at hn
      exact hn
    rw [show p = (p.1, p.2) from rfl, filterMissing_cons]
    show (filterMissing filters rest _).2 k = _
    rcases List.mem_cons.mp hm with he | hm'
    · have h1 : p.1 = k := by rw [← he]
      have h2 : p.2 = u := by rw [← he]
      rw [filterMissing_snd_ne _ ?_]
      · rw [Result.set_apply, hInv p (List.mem_cons_self p rest), h1, h2, if_pos rfl]
      · intro q hq heq
        apply hnd.1
        rw [← h1] at heq
        have hqp : q.1 = p.1 := by
          rw [← hInv q (List.mem_cons_of_mem p hq)]
          exact heq
        rw [← hqp]
        exact List.mem_map.mpr ⟨q, hq, rfl⟩
    · exact ih _ (fun q hq => hInv q (List.mem_cons_of_mem p hq)) hnd.2 hm'

theorem filterMissing_snd_mono {filters : List ControllerFilter} {m : DefinedMap}
    {j : ResourceID} (res : Result) (h : (res j).isSome = true) :
    ((filterMissing filters m res).2 j).isSome = true := by
  induction m generalizing res with
  | nil => exact h
  | cons p rest ih =>
    rw [show p = (p.1, p.2) from rfl, filterMissing_cons]
    show ((filterMissing filters rest _).2 j).isSome = true
    apply ih
    rw [Result.set_apply]
    by_cases he : j = p.2.resourceID
    · rw [if_pos he]; rfl
    · rw [if_neg he]; exact h

theorem filterMissing_snd_isSome {filters : List ControllerFilter} {m : DefinedMap}
    {k : ResourceID} {u : ControllerUpdate} (res : Result)
    (hInv : ∀ p ∈ m, p.2.resourceID = p.1) (hm : (k, u) ∈ m) :
    ((filterMissing filters m res).2 k).isSome = true := by
  induction m generalizing res with
  | nil => cases hm
  | cons p rest ih =>
    rw [show p = (p.1, p.2) from rfl, filterMissing_cons]
    show ((filterMissing filters rest _).2 k).isSome = true
    rcases List.mem_cons.mp hm with he | hm'
    · apply filterMissing_snd_mono
      rw [Result.set_apply, hInv p (List.mem_cons_self p rest)]
      have h1 : p.1 = k := by rw [← he]
      rw [h1, if_pos rfl]
      rfl
    · exact ih _ (fun q hq => hInv q (List.mem_cons_of_mem p hq)) hm'

theorem markSkipped_apply (m : DefinedMap) (res : Result) (j : ResourceID) :
    markSkipped m res j =
      if j ∈ m.map (fun p => p.1) then
        some { status := ReleaseStatusSkipped, error := NotInCluster }
      else res j := by
  induction m generalizing res with
  | nil => simp [markSkipped]
  | cons p rest ih =>
    rw [show p = (p.1, p.2) from rfl]
    show markSkipped rest (res.set p.1 _) j = _
    rw [ih]
    by_cases h1 : j ∈ rest.map (fun q => q.1)
    · rw [if_pos h1, if_pos (by simp only [List.map_cons, List.mem_cons]; exact Or.inr h1)]
    · rw [if_neg h1, Result.set_apply]
      by_cases h2 : j = p.1
      · rw [if_pos h2, if_pos (by simp only [List.map_cons, List.mem_cons]; exact Or.inl h2)]
      · rw [if_neg h2, if_neg ?_]
        simp only [List.map_cons, List.mem_cons]
        rintro (he | he)
        · exact h2 he
        · exact h1 he

/-! ### Characterization of selectDefined -/

theorem buildMap_inv {defined : List ControllerUpdate} :
    ∀ p ∈ buildDefinedMap defined, p.2.resourceID = p.1 ∧ p.2 ∈ defined := by
  intro p hp
  rw [buildDefinedMap] at hp
  rcases foldl_insertOv_mem hp with h | ⟨u, hu, rfl⟩
  · cases h
  · exact ⟨rfl, hu⟩

theorem buildMap_keys_mem {defined : List ControllerUpdate} {u : ControllerUpdate}
    (hu : u ∈ defined) :
    u.resourceID ∈ (buildDefinedMap defined).map (fun p => p.1) := by
  rw [buildDefinedMap]
  exact foldl_insertOv_keys (Or.inr ⟨u, hu, rfl⟩)

theorem nodup_keys_mem_eq {m : DefinedMap} {k : ResourceID} {a b : ControllerUpdate}
    (hn : (m.map (fun p => p.1)).Nodup) (ha : (k, a) ∈ m) (hb : (k, b) ∈ m) : a = b := by
  induction m with
  | nil => cases ha
  | cons p rest ih =>
    have hnd : p.1 ∉ rest.map (fun q => q.1) ∧ (rest.map (fun q => q.1)).Nodup := by
      rw [List.map_cons, List.nodup_cons] at hn
      exact hn
    rcases List.mem_cons.mp ha with hea | ha' <;> rcases List.mem_cons.mp hb with heb | hb'
    · rw [← hea] at heb
      exact congrArg Prod.snd heb.symm
    · exfalso
      apply hnd.1
      rw [← hea]
      exact List.mem_map.mpr ⟨(k, b), hb', rfl⟩
    · exfalso
      apply hnd.1
      rw [← heb]
      exact List.mem_map.mpr ⟨(k, a), ha', rfl⟩
    · exact ih hnd.2 ha' hb'

theorem selectDefined_eq {defined : List ControllerUpdate}
    {ctrl : List ResourceID → Except RCError (List Controller)}
    {filters : List ControllerFilter} {res0 : Result} {services : List Controller}
    (hc : ctrl (defined.map (fun s => s.resourceID)) = .ok services) :
    selectDefined defined ctrl filters res0 = .ok
      ((filterUpdates filters (correlate services (buildDefinedMap defined)).1 res0).1,
       markSkipped
         (filterMissing filters (correlate services (buildDefinedMap defined)).2
           (filterUpdates filters (correlate services (buildDefinedMap defined)).1 res0).2).1
         (filterMissing filters (correlate services (buildDefinedMap defined)).2
           (filterUpdates filters (correlate services (buildDefinedMap defined)).1 res0).2).2) := by
  simp only [selectDefined, hc]
  rfl

theorem selectDefined_running_entry {defined : List ControllerUpdate}
    {ctrl : List ResourceID → Except RCError (List Controller)}
    {filters : List ControllerFilter} {res0 : Result} {services : List Controller}
    {u : ControllerUpdate} {s : Controller}
    (hnd : (defined.map (fun v => v.resourceID)).Nodup)
    (hS : (services.map (fun t => t.id)).Nodup)
    (hc : ctrl (defined.map (fun v => v.resourceID)) = .ok services)
    (hu : u ∈ defined) (hs : s ∈ services) (hid : s.id = u.resourceID) :
    resultEntry (selectDefined defined ctrl filters res0) u.resourceID =
      some ({ u with controller := some s }.runFilters filters) := by
  have hBM := buildMap_eq_map hnd
  have hInv : ∀ p ∈ buildDefinedMap defined, p.2.resourceID = p.1 :=
    fun p hp => (buildMap_inv p hp).1
  have hlook : (buildDefinedMap defined).lookupKey s.id = some u := by
    rw [hid, hBM]
    exact lookupKey_map_self hnd hu
  have hu' : { u with controller := some s } ∈
      (correlate services (buildDefinedMap defined)).1 :=
    correlate_fst_mem_intro hS hs hlook
  have hrem : ∀ p ∈ (correlate services (buildDefinedMap defined)).2,
      p.2.resourceID ≠ u.resourceID := by
    intro p hp
    rw [correlate_snd_eq] at hp
    have h1 := List.mem_filter.mp hp
    have h2 : p.1 ∉ services.map (fun t => t.id) := by simpa using h1.2
    rw [hInv p h1.1]
    intro he
    apply h2
    rw [he, ← hid]
    exact List.mem_map.mpr ⟨s, hs, rfl⟩
  rw [selectDefined_eq hc]
  show markSkipped _ _ u.resourceID = _
  rw [markSkipped_apply]
  rw [if_neg ?_]
  · rw [filterMissing_snd_ne _ hrem]
    exact filterUpdates_snd_mem res0 (correlate_fst_nodup hInv hS) hu'
  · intro hmem
    obtain ⟨p, hp, he⟩ := List.mem_map.mp hmem
    rw [filterMissing_fst] at hp
    have hpR := List.mem_of_mem_filter hp
    have h3 := hInv p (List.mem_of_mem_filter (by rw [correlate_snd_eq] at hpR; exact hpR))
    exact hrem p hpR (by rw [h3, he])

theorem selectDefined_running_kept {defined : List ControllerUpdate}
    {ctrl : List ResourceID → Except RCError (List Controller)}
    {filters : List ControllerFilter} {res0 : Result} {services : List Controller}
    {u : ControllerUpdate} {s : Controller}
    (hnd : (defined.map (fun v => v.resourceID)).Nodup)
    (hS : (services.map (fun t => t.id)).Nodup)
    (hc : ctrl (defined.map (fun v => v.resourceID)) = .ok services)
    (hu : u ∈ defined) (hs : s ∈ services) (hid : s.id = u.resourceID) :
    ({ u with controller := some s } ∈ updatesOf (selectDefined defined ctrl filters res0) ↔
      (({ u with controller := some s }.runFilters filters).status = ReleaseStatusSuccess ∨
        ({ u with controller := some s }.runFilters filters).status = "")) := by
  have hBM := buildMap_eq_map hnd
  have hlook : (buildDefinedMap defined).lookupKey s.id = some u := by
    rw [hid, hBM]
    exact lookupKey_map_self hnd hu
  have hu' : { u with controller := some s } ∈
      (correlate services (buildDefinedMap defined)).1 :=
    correlate_fst_mem_intro hS hs hlook
  rw [selectDefined_eq hc]
  show _ ∈ (filterUpdates _ _ _).1 ↔ _
  rw [filterUpdates_fst]
  constructor
  · intro hmem
    have := (List.mem_filter.mp hmem).2
    simpa using this
  · intro hcond
    exact List.mem_filter.mpr ⟨hu', by simpa using hcond⟩

theorem selectDefined_missing_entry {defined : List ControllerUpdate}
    {ctrl : List ResourceID → Except RCError (List Controller)}
    {filters : List ControllerFilter} {res0 : Result} {services : List Controller}
    {u : ControllerUpdate}
    (hnd : (defined.map (fun v => v.resourceID)).Nodup)
    (hc : ctrl (defined.map (fun v => v.resourceID)) = .ok services)
    (hu : u ∈ defined) (hmiss : u.resourceID ∉ services.map (fun t => t.id)) :
    resultEntry (selectDefined defined ctrl filters res0) u.resourceID =
      some (if (u.runFilters filters).status = ReleaseStatusIgnored then u.runFilters filters
            else { status := ReleaseStatusSkipped, error := NotInCluster }) := by
  have hBM := buildMap_eq_map hnd
  have hInv : ∀ p ∈ buildDefinedMap defined, p.2.resourceID = p.1 :=
    fun p hp => (buildMap_inv p hp).1
  have hmemBM : (u.resourceID, u) ∈ buildDefinedMap defined := by
    rw [hBM]
    exact List.mem_map.mpr ⟨u, hu, rfl⟩
  have hmemR : (u.resourceID, u) ∈ (correlate services (buildDefinedMap defined)).2 := by
    rw [correlate_snd_eq]
    exact List.mem_filter.mpr ⟨hmemBM, by simpa using hmiss⟩
  have hInvR : ∀ p ∈ (correlate services (buildDefinedMap defined)).2, p.2.resourceID = p.1 := by
    intro p hp
    rw [correlate_snd_eq] at hp
    exact hInv p (List.mem_of_mem_filter hp)
  have hnk : ((correlate services (buildDefinedMap defined)).2.map (fun p => p.1)).Nodup := by
    rw [correlate_snd_eq]
    have hsub : List.Sublist
        (((buildDefinedMap defined).filter
          (fun p => decide (p.1 ∉ services.map (fun s => s.id)))).map (fun p => p.1))
        ((buildDefinedMap defined).map (fun p => p.1)) := by
      apply List.Sublist.map
      exact List.filter_sublist _
    apply List.Nodup.sublist hsub
    rw [hBM, List.map_map]
    simpa using hnd
  have hA : (filterUpdates filters (correlate services (buildDefinedMap defined)).1
      res0).2 u.resourceID = res0 u.resourceID := by
    apply filterUpdates_snd_ne
    intro v hv he
    have := (correlate_fst_ids hInv v hv).1
    rw [he] at this
    exact hmiss this
  have hB : (filterMissing filters (correlate services (buildDefinedMap defined)).2
      (filterUpdates filters (correlate services (buildDefinedMap defined)).1 res0).2).2
        u.resourceID = some (u.runFilters filters) :=
    filterMissing_snd_mem _ hInvR hnk hmemR
  rw [selectDefined_eq hc]
  show markSkipped _ _ u.resourceID = _
  rw [markSkipped_apply]
  by_cases hig : (u.runFilters filters).status = ReleaseStatusIgnored
  · rw [if_neg ?_, hB, if_pos hig]
    intro hmem
    obtain ⟨p, hp, he⟩ := List.mem_map.mp hmem
    rw [filterMissing_fst] at hp
    have hpR := List.mem_of_mem_filter hp
    have hpred := (List.mem_filter.mp hp).2
    have hp2 : p.2 = u := by
      have hpk : p = (u.resourceID, p.2) := by rw [← he]
      rw [hpk] at hpR
      exact nodup_keys_mem_eq hnk hpR hmemR
    rw [hp2] at hpred
    simp only [decide_eq_true_eq] at hpred
    exact hpred hig
  · rw [if_pos ?_, if_neg hig]
    apply List.mem_map.mpr
    refine ⟨(u.resourceID, u), ?_, rfl⟩
    rw [filterMissing_fst]
    exact List.mem_filter.mpr ⟨hmemR, by simpa using hig⟩

theorem selectDefined_untouched {defined : List ControllerUpdate}
    {ctrl : List ResourceID → Except RCError (List Controller)}
    {filters : List ControllerFilter} {res0 : Result} {services : List Controller}
    {j : ResourceID}
    (hc : ctrl (defined.map (fun v => v.resourceID)) = .ok services)
    (hj : ∀ u ∈ defined, u.resourceID ≠ j) :
    resultEntry (selectDefined defined ctrl filters res0) j = res0 j ∧
      ∀ v ∈ updatesOf (selectDefined defined ctrl filters res0), v.resourceID ≠ j := by
  have hInv : ∀ p ∈ buildDefinedMap defined, p.2.resourceID = p.1 :=
    fun p hp => (buildMap_inv p hp).1
  have hbmk : ∀ p ∈ buildDefinedMap defined, p.1 ≠ j := by
    intro p hp
    rw [← (buildMap_inv p hp).1]
    exact hj p.2 (buildMap_inv p hp).2
  have hupd : ∀ v ∈ (correlate services (buildDefinedMap defined)).1, v.resourceID ≠ j := by
    intro v hv
    have h2 := (correlate_fst_ids hInv v hv).2
    obtain ⟨p, hp, he⟩ := List.mem_map.mp h2
    rw [← he]
    exact hbmk p hp
  have hrem : ∀ p ∈ (correlate services (buildDefinedMap defined)).2, p.2.resourceID ≠ j := by
    intro p hp
    rw [correlate_snd_eq] at hp
    have h1 := List.mem_of_mem_filter hp
    rw [hInv p h1]
    exact hbmk p h1
  rw [selectDefined_eq hc]
  constructor
  · show markSkipped _ _ j = _
    rw [markSkipped_apply, if_neg ?_]
    · rw [filterMissing_snd_ne _ hrem]
      exact filterUpdates_snd_ne res0 hupd
    · intro hmem
      obtain ⟨p, hp, he⟩ := List.mem_map.mp hmem
      rw [filterMissing_fst] at hp
      have hpR := List.mem_of_mem_filter hp
      rw [correlate_snd_eq] at hpR
      exact hbmk p (List.mem_of_mem_filter hpR) he
  · show ∀ v ∈ (filterUpdates _ _ _).1, v.resourceID ≠ j
    intro v hv
    rw [filterUpdates_fst] at hv
    exact hupd v (List.mem_of_mem_filter hv)

/-! ### Lemmas about FindDefinedServices and SelectServices plumbing -/

theorem markSkipped_mono {m : DefinedMap} {res : Result} {j : ResourceID}
    (h : (res j).isSome = true) : (markSkipped m res j).isSome = true := by
  rw [markSkipped_apply]
  by_cases hm : j ∈ m.map (fun p => p.1)
  · rw [if_pos hm]; rfl
  · rw [if_neg hm]; exact h

theorem findDefined_ids {entries : List (ResourceID × List String)} {fs : FileSystem}
    {defined : List ControllerUpdate}
    (h : findDefinedServices entries fs = .ok defined) :
    ∀ ip ∈ entries, ∃ u ∈ defined, u.resourceID = ip.1 := by
  induction entries generalizing defined with
  | nil => intro ip hip; cases hip
  | cons e rest ih =>
    intro ip hip
    obtain ⟨id, paths⟩ := e
    match paths with
    | [] => simp [findDefinedServices] at h
    | [p] =>
      cases hf : fs p with
      | none => simp [findDefinedServices, readFile, hf, Bind.bind, Except.bind] at h
      | some mb =>
        cases ht : findDefinedServices rest fs with
        | error e0 =>
          simp [findDefinedServices, readFile, hf, ht, Bind.bind, Except.bind] at h
        | ok tail =>
          simp only [findDefinedServices, readFile, hf, ht, Bind.bind, Except.bind,
            Except.ok.injEq] at h
          rcases List.mem_cons.mp hip with he | hip'
          · rw [← h, he]
            exact ⟨_, List.mem_cons_self _ _, rfl⟩
          · obtain ⟨u, hu, he⟩ := ih ht ip hip'
            rw [← h]
            exact ⟨u, List.mem_cons_of_mem _ hu, he⟩
    | p1 :: p2 :: tl => simp [findDefinedServices] at h

theorem findDefined_multi_error {entries : List (ResourceID × List String)} {fs : FileSystem}
    {id : ResourceID} {paths : List String}
    (htarget : (id, paths) ∈ entries) (hlen : 2 ≤ paths.length)
    (hread : ∀ i p, (i, [p]) ∈ entries → (fs p).isSome = true) :
    ∃ i2 ps2, findDefinedServices entries fs = .error (.multipleResourceFiles i2 ps2) := by
  induction entries with
  | nil => cases htarget
  | cons e rest ih =>
    obtain ⟨i0, ps0⟩ := e
    match ps0 with
    | [] => exact ⟨i0, [], by simp [findDefinedServices]⟩
    | [p] =>
      have hp : (fs p).isSome = true := hread i0 p (List.mem_cons_self _ _)
      cases hf : fs p with
      | none => rw [hf] at hp; cases hp
      | some mb =>
        have htarget' : (id, paths) ∈ rest := by
          rcases List.mem_cons.mp htarget with he | h'
          · exfalso
            have hps : paths = [p] := congrArg Prod.snd he
            rw [hps] at hlen
            simp at hlen
          · exact h'
        obtain ⟨i2, ps2, he⟩ :=
          ih htarget' fun i q hq => hread i q (List.mem_cons_of_mem _ hq)
        exact ⟨i2, ps2, by
          simp [findDefinedServices, readFile, hf, he, Bind.bind, Except.bind]⟩
    | p1 :: p2 :: tl => exact ⟨i0, p1 :: p2 :: tl, by simp [findDefinedServices]⟩

theorem selectServices_find_error {entries : List (ResourceID × List String)} {fs : FileSystem}
    {ctrl : List ResourceID → Except RCError (List Controller)}
    {filters : List ControllerFilter} {res0 : Result} {e : RCError}
    (h : findDefinedServices entries fs = .error e) :
    selectServices entries fs ctrl filters res0 = .error e := by
  simp [selectServices, h, Bind.bind, Except.bind]

theorem selectServices_find_ok {entries : List (ResourceID × List String)} {fs : FileSystem}
    {ctrl : List ResourceID → Except RCError (List Controller)}
    {filters : List ControllerFilter} {res0 : Result} {defined : List ControllerUpdate}
    (h : findDefinedServices entries fs = .ok defined) :
    selectServices entries fs ctrl filters res0 = selectDefined defined ctrl filters res0 := by
  simp [selectServices, h, Bind.bind, Except.bind]

theorem selectDefined_ctrl_error {defined : List ControllerUpdate}
    {ctrl : List ResourceID → Except RCError (List Controller)}
    {filters : List ControllerFilter} {res0 : Result} {e : RCError}
    (hc : ctrl (defined.map (fun s => s.resourceID)) = .error e) :
    selectDefined defined ctrl filters res0 = .error e := by
  simp [selectDefined, hc, Bind.bind, Except.bind]

theorem selectDefined_total {defined : List ControllerUpdate}
    {ctrl : List ResourceID → Except RCError (List Controller)}
    {filters : List ControllerFilter} {res0 : Result} {services : List Controller}
    {u : ControllerUpdate}
    (hc : ctrl (defined.map (fun s => s.resourceID)) = .ok services) (hu : u ∈ defined) :
    (resultEntry (selectDefined defined ctrl filters res0) u.resourceID).isSome = true := by
  have hInv : ∀ p ∈ buildDefinedMap defined, p.2.resourceID = p.1 :=
    fun p hp => (buildMap_inv p hp).1
  have hInvR : ∀ p ∈ (correlate services (buildDefinedMap defined)).2, p.2.resourceID = p.1 := by
    intro p hp
    rw [correlate_snd_eq] at hp
    exact hInv p (List.mem_of_mem_filter hp)
  have hkey : u.resourceID ∈ (buildDefinedMap defined).map (fun p => p.1) :=
    buildMap_keys_mem hu
  rw [selectDefined_eq hc]
  show (markSkipped _ _ u.resourceID).isSome = true
  rcases correlate_covers hInv hkey with hL | hR
  · obtain ⟨v, hv, he⟩ := List.mem_map.mp hL
    rw [← he]
    apply markSkipped_mono
    apply filterMissing_snd_mono
    exact filterUpdates_snd_isSome res0 hv
  · obtain ⟨p, hp, he⟩ := List.mem_map.mp hR
    rw [← he]
    apply markSkipped_mono
    exact filterMissing_snd_isSome _ hInvR hp

/-! ### Lemmas about WriteUpdates -/

theorem writeUpdates_untouched {updates : List ControllerUpdate} {fs : FileSystem} {q : String}
    (hq : q ∉ updates.map (fun u => u.manifestPath)) :
    (writeUpdates updates fs).2 q = fs q := by
  induction updates generalizing fs with
  | nil => rfl
  | cons v rest ih =>
    have hq1 : q ≠ v.manifestPath := by
      intro he
      exact hq (by rw [List.map_cons]; exact List.mem_cons.mpr (Or.inl he))
    have hq2 : q ∉ rest.map (fun u => u.manifestPath) := by
      intro hm
      exact hq (by rw [List.map_cons]; exact List.mem_cons.mpr (Or.inr hm))
    cases hf : fs v.manifestPath with
    | none => simp [writeUpdates, hf]
    | some mb =>
      simp only [writeUpdates, hf]
      rw [ih hq2]
      simp [FileSystem.setFile, hq1]

theorem writeUpdates_ok_mem {updates : List ControllerUpdate} {fs fsF : FileSystem}
    (hn : (updates.map (fun u => u.manifestPath)).Nodup)
    (h : writeUpdates updates fs = (.ok (), fsF)) :
    ∀ u ∈ updates, ∃ mode old, fs u.manifestPath = some (mode, old) ∧
      fsF u.manifestPath = some (mode, u.manifestBytes) := by
  induction updates generalizing fs with
  | nil => intro u hu; cases hu
  | cons v rest ih =>
    have hnd : v.manifestPath ∉ rest.map (fun u => u.manifestPath) ∧
        (rest.map (fun u => u.manifestPath)).Nodup := by
      rw [List.map_cons, List.nodup_cons] at hn
      exact hn
    intro u hu
    cases hf : fs v.manifestPath with
    | none =>
      simp only [writeUpdates, hf] at h
      exact absurd (congrArg Prod.fst h) (by simp)
    | some mb =>
      simp only [writeUpdates, hf] at h
      rcases List.mem_cons.mp hu with rfl | hu2
      · refine ⟨mb.1, mb.2, by rw [hf], ?_⟩
        have hW : (writeUpdates rest
            (fs.setFile u.manifestPath (mb.1, u.manifestBytes))).2 u.manifestPath =
            (fs.setFile u.manifestPath (mb.1, u.manifestBytes)) u.manifestPath :=
          writeUpdates_untouched hnd.1
        rw [h] at hW
        have hset : (fs.setFile u.manifestPath (mb.1, u.manifestBytes)) u.manifestPath =
            some (mb.1, u.manifestBytes) := by
          simp [FileSystem.setFile]
        exact Eq.trans hW hset
      · have hne : u.manifestPath ≠ v.manifestPath := by
          intro he
          exact hnd.1 (he ▸ List.mem_map.mpr ⟨u, hu2, rfl⟩)
        obtain ⟨mode, old, h1, h2⟩ := ih hnd.2 h u hu2
        have hset : (fs.setFile v.manifestPath (mb.1, v.manifestBytes)) u.manifestPath =
            fs u.manifestPath := by
          simp [FileSystem.setFile, hne]
        exact ⟨mode, old, by rw [← hset]; exact h1, h2⟩

theorem writeUpdates_error_shape {updates : List ControllerUpdate} {fs fsF : FileSystem}
    {e : WriteError} (h : writeUpdates updates fs = (.error e, fsF)) :
    ∃ front u rest2, updates = front ++ u :: rest2 ∧ e = .statErr u.manifestPath ∧
      fsF u.manifestPath = none ∧ writeUpdates front fs = (.ok (), fsF) := by
  induction updates generalizing fs with
  | nil => exact absurd (congrArg Prod.fst h) (by simp [writeUpdates])
  | cons v rest ih =>
    cases hf : fs v.manifestPath with
    | none =>
      simp only [writeUpdates, hf] at h
      have he : WriteError.statErr v.manifestPath = e := by
        have h5 := congrArg Prod.fst h
        simpa using h5
      have hfs : fs = fsF := congrArg Prod.snd h
      refine ⟨[], v, rest, rfl, he.symm, ?_, ?_⟩
      · rw [← hfs]
        exact hf
      · show (Except.ok (), fs) = ((Except.ok () : Except WriteError Unit), fsF)
        rw [hfs]
    | some mb =>
      simp only [writeUpdates, hf] at h
      obtain ⟨front, u, rest2, h1, h2, h3, h4⟩ := ih h
      refine ⟨v :: front, u, rest2, by rw [h1]; rfl, h2, h3, ?_⟩
      simp only [writeUpdates, hf]
      exact h4

/-! ### Lemmas about the lock-discipline traces -/

theorem foldSteps_reads {l : List Ev} (h : ∀ e ∈ l, ∃ p, e = .readEv p) :
    l.foldl (fun st e => st.bind (fun s => evStep s e)) (some LockState.rlocked) =
      some LockState.rlocked := by
  induction l with
  | nil => rfl
  | cons e rest ih =>
    obtain ⟨p, rfl⟩ := h e (List.mem_cons_self e rest)
    exact ih fun e2 he2 => h e2 (List.mem_cons_of_mem _ he2)

theorem foldSteps_rw {l : List Ev}
    (h : ∀ e ∈ l, (∃ p, e = .readEv p) ∨ ∃ p, e = .writeEv p) :
    l.foldl (fun st e => st.bind (fun s => evStep s e)) (some LockState.wlocked) =
      some LockState.wlocked := by
  induction l with
  | nil => rfl
  | cons e rest ih =>
    rcases h e (List.mem_cons_self e rest) with ⟨p, rfl⟩ | ⟨p, rfl⟩ <;>
      exact ih fun e2 he2 => h e2 (List.mem_cons_of_mem _ he2)

theorem disciplined_wrap_reads {l : List Ev} (h : ∀ e ∈ l, ∃ p, e = .readEv p) :
    disciplined (.rlock :: (l ++ [.runlock])) = true := by
  rw [disciplined]
  rw [List.foldl_cons, List.foldl_append]
  have h1 : (some LockState.free).bind (fun s => evStep s .rlock) =
      some LockState.rlocked := rfl
  rw [h1, foldSteps_reads h]
  rfl

theorem disciplined_wrap_writes {l : List Ev}
    (h : ∀ e ∈ l, (∃ p, e = .readEv p) ∨ ∃ p, e = .writeEv p) :
    disciplined (.wlock :: (l ++ [.wunlock])) = true := by
  rw [disciplined]
  rw [List.foldl_cons, List.foldl_append]
  have h1 : (some LockState.free).bind (fun s => evStep s .wlock) =
      some LockState.wlocked := rfl
  rw [h1, foldSteps_rw h]
  rfl

theorem findDefinedReads_shape (fs : FileSystem) (entries : List (ResourceID × List String)) :
    ∀ e ∈ findDefinedReads fs entries, ∃ p, e = .readEv p := by
  induction entries with
  | nil => intro e he; cases he
  | cons ip rest ih =>
    intro e he
    obtain ⟨id, paths⟩ := ip
    match paths with
    | [] => cases he
    | [p] =>
      rw [findDefinedReads] at he
      rcases List.mem_cons.mp he with rfl | he'
      · exact ⟨p, rfl⟩
      · cases hf : fs p with
        | none => rw [hf] at he'; cases he'
        | some mb =>
          rw [hf] at he'
          exact ih e he'
    | p1 :: p2 :: tl => cases he

theorem writeUpdatesEvents_shape (fs : FileSystem) (updates : List ControllerUpdate) :
    ∀ e ∈ writeUpdatesEvents fs updates, (∃ p, e = .readEv p) ∨ ∃ p, e = .writeEv p := by
  induction updates generalizing fs with
  | nil => intro e he; cases he
  | cons v rest ih =>
    intro e he
    rw [writeUpdatesEvents] at he
    rcases List.mem_cons.mp he with rfl | he'
    · exact Or.inl ⟨v.manifestPath, rfl⟩
    · cases hf : fs v.manifestPath with
      | none => rw [hf] at he'; cases he'
      | some mb =>
        rw [hf] at he'
        rcases List.mem_cons.mp he' with rfl | he2
        · exact Or.inr ⟨v.manifestPath, rfl⟩
        · exact ih _ e he2

/-! ### Lemmas about the update-images handler -/

theorem parseAll_error_of_mem {α : Type} {p : String → Except String α} {l : List String}
    {s : String} (hs : s ∈ l) (he : ∃ e, p s = .error e) :
    ∃ e2, parseAll p l = .error e2 := by
  induction l with
  | nil => cases hs
  | cons t rest ih =>
    cases hp : p t with
    | error e0 => exact ⟨e0, by simp [parseAll, hp, Bind.bind, Except.bind]⟩
    | ok a =>
      rcases List.mem_cons.mp hs with rfl | hs'
      · obtain ⟨e, hee⟩ := he
        rw [hp] at hee
        cases hee
      · obtain ⟨e2, h2⟩ := ih hs'
        exact ⟨e2, by simp [parseAll, hp, h2, Bind.bind, Except.bind]⟩

/-! ### Claim theorems -/

/-- C1: Totality of the Result. Whenever SelectServices returns without
error, every workload enumerated by the manifest scope that
FindDefinedServices walks has an entry in the Result afterward: the
defined-and-running workloads get their filter verdict, the
defined-but-not-running workloads get a verdict too, and no defined
workload is absent from the Result. -/
theorem c1_total_result (entries : List (ResourceID × List String)) (fs : FileSystem)
    (ctrl : List ResourceID → Except RCError (List Controller))
    (filters : List ControllerFilter) (res0 : Result)
    (h : exceptIsOk (selectServices entries fs ctrl filters res0) = true) :
    ∀ ip ∈ entries,
      (resultEntry (selectServices entries fs ctrl filters res0) ip.1).isSome = true := by
  intro ip hip
  cases hfind : findDefinedServices entries fs with
  | error e =>
    rw [selectServices_find_error hfind] at h
    simp [exceptIsOk] at h
  | ok defined =>
    rw [selectServices_find_ok hfind] at h ⊢
    cases hc : ctrl (defined.map (fun s => s.resourceID)) with
    | error e =>
      rw [selectDefined_ctrl_error hc] at h
      simp [exceptIsOk] at h
    | ok services =>
      obtain ⟨u, hu, he⟩ := findDefined_ids hfind ip hip
      rw [← he]
      exact selectDefined_total hc hu

theorem c1_total_result_witness :
    (resultEntry (selectServices [(idA, ["a.yaml"]), (idB, ["b.yaml"])] fsAB clusterA []
      emptyResult) idB).isSome = true :=
  c1_total_result [(idA, ["a.yaml"]), (idB, ["b.yaml"])] fsAB clusterA [] emptyResult
    (by decide) (idB, ["b.yaml"]) (by decide)

/-- C2, counterexample: a workload that is defined but not running and
whose filter verdict is IGNORED does not get SKIPPED / "not in cluster"
recorded; SelectServices leaves the IGNORED verdict in the Result. -/
theorem c2_counterexample :
    resultEntry (selectServices [(idA, ["a.yaml"])] fsAB clusterNone [ignoreFilter]
        emptyResult) idA =
      some { status := ReleaseStatusIgnored, error := "ignored by policy" } ∧
    resultEntry (selectServices [(idA, ["a.yaml"])] fsAB clusterNone [ignoreFilter]
        emptyResult) idA ≠
      some { status := ReleaseStatusSkipped, error := NotInCluster } := by
  constructor
  · decide
  · decide

/-- C2 amended: in SelectServices, a workload that is defined but not
reported by SomeControllers has SKIPPED / "not in cluster" recorded unless
its filter verdict is IGNORED, in which case the IGNORED verdict itself
stays in the Result; and every workload reported running but not defined
is omitted from the returned updates and leaves the Result untouched. -/
theorem c2_correlation_amended {defined : List ControllerUpdate}
    {ctrl : List ResourceID → Except RCError (List Controller)}
    {filters : List ControllerFilter} {res0 : Result} {services : List Controller}
    (hnd : (defined.map (fun v => v.resourceID)).Nodup)
    (hc : ctrl (defined.map (fun v => v.resourceID)) = .ok services) :
    (∀ u ∈ defined, u.resourceID ∉ services.map (fun t => t.id) →
      ((u.runFilters filters).status ≠ ReleaseStatusIgnored →
        resultEntry (selectDefined defined ctrl filters res0) u.resourceID =
          some { status := ReleaseStatusSkipped, error := NotInCluster }) ∧
      ((u.runFilters filters).status = ReleaseStatusIgnored →
        resultEntry (selectDefined defined ctrl filters res0) u.resourceID =
          some (u.runFilters filters))) ∧
    (∀ s ∈ services, s.id ∉ defined.map (fun v => v.resourceID) →
      resultEntry (selectDefined defined ctrl filters res0) s.id = res0 s.id ∧
      ∀ v ∈ updatesOf (selectDefined defined ctrl filters res0), v.resourceID ≠ s.id) := by
  constructor
  · intro u hu hmiss
    constructor
    · intro hni
      rw [selectDefined_missing_entry hnd hc hu hmiss, if_neg hni]
    · intro hig
      rw [selectDefined_missing_entry hnd hc hu hmiss, if_pos hig]
  · intro s hs hout
    apply selectDefined_untouched hc
    intro u hu he
    exact hout (he ▸ List.mem_map.mpr ⟨u, hu, rfl⟩)

theorem c2_correlation_amended_witness :
    resultEntry (selectDefined [updA] clusterB [] emptyResult) idA =
      some { status := ReleaseStatusSkipped, error := NotInCluster } ∧
    resultEntry (selectDefined [updA] clusterB [] emptyResult) idB = emptyResult idB := by
  have h := @c2_correlation_amended [updA] clusterB [] emptyResult [ctrlB]
    (by decide) rfl
  exact ⟨(h.1 updA (by decide) (by decide)).1 (by decide),
    (h.2 ctrlB (by decide) (by decide)).1⟩

/-- C3, counterexample: a running workload whose filter pipeline returns an
IGNORED verdict still has an entry in the Result after SelectServices (the
entry carries the IGNORED verdict); it is not excluded from the Result. -/
theorem c3_counterexample :
    resultEntry (selectServices [(idA, ["a.yaml"])] fsAB clusterA [ignoreFilter]
        emptyResult) idA =
      some { status := ReleaseStatusIgnored, error := "ignored by policy" } := by
  decide

/-- C3 amended: every examined workload keeps its entry in the Result with
its filter verdict, IGNORED included; what a non-success verdict (IGNORED,
SKIPPED or FAILED alike) does to a running workload is exclude it from the
returned update list, and for a defined-but-not-running workload an
IGNORED verdict additionally exempts the entry from the SKIPPED /
"not in cluster" overwrite. -/
theorem c3_ignored_amended {defined : List ControllerUpdate}
    {ctrl : List ResourceID → Except RCError (List Controller)}
    {filters : List ControllerFilter} {res0 : Result} {services : List Controller}
    {u : ControllerUpdate} {s : Controller}
    (hnd : (defined.map (fun v => v.resourceID)).Nodup)
    (hS : (services.map (fun t => t.id)).Nodup)
    (hc : ctrl (defined.map (fun v => v.resourceID)) = .ok services)
    (hu : u ∈ defined) (hs : s ∈ services) (hid : s.id = u.resourceID) :
    resultEntry (selectDefined defined ctrl filters res0) u.resourceID =
      some ({ u with controller := some s }.runFilters filters) ∧
    (({ u with controller := some s }.runFilters filters).status ≠ ReleaseStatusSuccess →
      ({ u with controller := some s }.runFilters filters).status ≠ "" →
      { u with controller := some s } ∉ updatesOf (selectDefined defined ctrl filters res0)) := by
  refine ⟨selectDefined_running_entry hnd hS hc hu hs hid, ?_⟩
  intro h1 h2 hmem
  rcases (selectDefined_running_kept hnd hS hc hu hs hid).mp hmem with h | h
  · exact h1 h
  · exact h2 h

theorem c3_ignored_amended_witness :
    resultEntry (selectDefined [updA] clusterA [ignoreFilter] emptyResult) idA =
      some ({ updA with controller := some ctrlA }.runFilters [ignoreFilter]) ∧
    { updA with controller := some ctrlA } ∉
      updatesOf (selectDefined [updA] clusterA [ignoreFilter] emptyResult) := by
  have h := @c3_ignored_amended [updA] clusterA [ignoreFilter] emptyResult [ctrlA] updA ctrlA
    (by decide) (by decide) rfl (by decide) (by decide) rfl
  exact ⟨h.1, h.2 (by decide) (by decide)⟩

/-- C4, counterexample: with a single filter that returns SUCCESS for every
workload, the verdict SelectServices records for a defined-and-running
workload has the empty status, not SUCCESS: the claim's "is SUCCESS when
every filter returns SUCCESS" does not hold of the recorded entry. -/
theorem c4_counterexample :
    resultEntry (selectServices [(idA, ["a.yaml"])] fsAB clusterA [passFilter]
        emptyResult) idA = some { status := "", error := "" } ∧
    (resultEntry (selectServices [(idA, ["a.yaml"])] fsAB clusterA [passFilter]
        emptyResult) idA).map (fun cr => cr.status) ≠ some ReleaseStatusSuccess := by
  constructor
  · decide
  · decide

/-- C4 amended: for every defined-and-running workload the verdict recorded
in the Result equals the verdict of the first filter, in the given order,
whose status is not SUCCESS; when every filter returns SUCCESS the zero
verdict (empty status, treated as success by SelectServices) is recorded
rather than a SUCCESS verdict. -/
theorem c4_precedence_amended {defined : List ControllerUpdate}
    {ctrl : List ResourceID → Except RCError (List Controller)}
    {filters : List ControllerFilter} {res0 : Result} {services : List Controller}
    {u : ControllerUpdate} {s : Controller}
    (hnd : (defined.map (fun v => v.resourceID)).Nodup)
    (hS : (services.map (fun t => t.id)).Nodup)
    (hc : ctrl (defined.map (fun v => v.resourceID)) = .ok services)
    (hu : u ∈ defined) (hs : s ∈ services) (hid : s.id = u.resourceID) :
    resultEntry (selectDefined defined ctrl filters res0) u.resourceID =
      some ((firstNonSuccess filters { u with controller := some s }).getD
        { status := "", error := "" }) := by
  rw [selectDefined_running_entry hnd hS hc hu hs hid, runFilters_eq_firstNonSuccess]

theorem c4_precedence_amended_witness :
    resultEntry (selectDefined [updA] clusterA [passFilter, skipFilter, failFilter]
        emptyResult) idA =
      some ((firstNonSuccess [passFilter, skipFilter, failFilter]
        { updA with controller := some ctrlA }).getD { status := "", error := "" }) :=
  @c4_precedence_amended [updA] clusterA [passFilter, skipFilter, failFilter] emptyResult
    [ctrlA] updA ctrlA (by decide) (by decide) rfl (by decide) (by decide) rfl

/-- C9: the filter pipeline also runs on defined-but-not-running workloads
and its verdict interacts with the "not in cluster" marking: an IGNORED
verdict stays in the Result as-is, while any other verdict (SUCCESS,
SKIPPED or FAILED, whatever its reason) is overwritten by SKIPPED with
reason "not in cluster". -/
theorem c9_missing_filter_interaction {defined : List ControllerUpdate}
    {ctrl : List ResourceID → Except RCError (List Controller)}
    {filters : List ControllerFilter} {res0 : Result} {services : List Controller}
    {u : ControllerUpdate}
    (hnd : (defined.map (fun v => v.resourceID)).Nodup)
    (hc : ctrl (defined.map (fun v => v.resourceID)) = .ok services)
    (hu : u ∈ defined) (hmiss : u.resourceID ∉ services.map (fun t => t.id)) :
    resultEntry (selectDefined defined ctrl filters res0) u.resourceID =
      some (if (u.runFilters filters).status = ReleaseStatusIgnored then u.runFilters filters
            else { status := ReleaseStatusSkipped, error := NotInCluster }) :=
  selectDefined_missing_entry hnd hc hu hmiss

theorem c9_missing_filter_interaction_witness :
    resultEntry (selectDefined [updA] clusterNone [failFilter] emptyResult) idA =
      some (if (updA.runFilters [failFilter]).status = ReleaseStatusIgnored then
        updA.runFilters [failFilter]
      else { status := ReleaseStatusSkipped, error := NotInCluster }) :=
  @c9_missing_filter_interaction [updA] clusterNone [failFilter] emptyResult [] updA
    (by decide) rfl (by decide) (by decide)

/-- C10: a defined-and-running workload is returned in the update list
exactly when its combined verdict has status SUCCESS or the empty status;
with an empty filter list every defined-and-running workload is returned
and its Result entry carries the empty status, which lies outside the
documented enumeration SUCCESS, SKIPPED, IGNORED, FAILED. -/
theorem c10_empty_verdict {defined : List ControllerUpdate}
    {ctrl : List ResourceID → Except RCError (List Controller)}
    {filters : List ControllerFilter} {res0 : Result} {services : List Controller}
    {u : ControllerUpdate} {s : Controller}
    (hnd : (defined.map (fun v => v.resourceID)).Nodup)
    (hS : (services.map (fun t => t.id)).Nodup)
    (hc : ctrl (defined.map (fun v => v.resourceID)) = .ok services)
    (hu : u ∈ defined) (hs : s ∈ services) (hid : s.id = u.resourceID) :
    ({ u with controller := some s } ∈ updatesOf (selectDefined defined ctrl filters res0) ↔
      (({ u with controller := some s }.runFilters filters).status = ReleaseStatusSuccess ∨
        ({ u with controller := some s }.runFilters filters).status = "")) ∧
    (filters = [] →
      resultEntry (selectDefined defined ctrl filters res0) u.resourceID =
        some { status := "", error := "" } ∧
      { u with controller := some s } ∈ updatesOf (selectDefined defined ctrl filters res0)) ∧
    ¬(("" : ReleaseStatus) = ReleaseStatusSuccess ∨ ("" : ReleaseStatus) = ReleaseStatusSkipped ∨
      ("" : ReleaseStatus) = ReleaseStatusIgnored ∨ ("" : ReleaseStatus) = ReleaseStatusFailed) := by
  refine ⟨selectDefined_running_kept hnd hS hc hu hs hid, ?_, by decide⟩
  rintro rfl
  constructor
  · rw [selectDefined_running_entry hnd hS hc hu hs hid]
    rfl
  · exact (selectDefined_running_kept hnd hS hc hu hs hid).mpr (Or.inr rfl)

theorem c10_empty_verdict_witness :
    resultEntry (selectDefined [updA] clusterA [] emptyResult) idA =
      some { status := "", error := "" } ∧
    { updA with controller := some ctrlA } ∈ updatesOf (selectDefined [updA] clusterA []
      emptyResult) := by
  have h := @c10_empty_verdict [updA] clusterA [] emptyResult [ctrlA] updA ctrlA
    (by decide) (by decide) rfl (by decide) (by decide) rfl
  exact h.2.1 rfl

/-- C5: multiple-manifest failure is global. If the manifest enumeration
maps some resource ID to more than one file path (and the singleton
entries are readable, so no read error preempts the walk), then
FindDefinedServices returns a multiple-resource-files error, and
SelectServices propagates that same error, so the whole release fails and
no updates are produced (the error result carries no update list), rather
than a per-resource FAILED entry being recorded. -/
theorem c5_multiple_manifests_global (entries : List (ResourceID × List String))
    (fs : FileSystem) (ctrl : List ResourceID → Except RCError (List Controller))
    (filters : List ControllerFilter) (res0 : Result) (id : ResourceID)
    (paths : List String)
    (htarget : (id, paths) ∈ entries) (hlen : 2 ≤ paths.length)
    (hread : ∀ i p, (i, [p]) ∈ entries → (fs p).isSome = true) :
    ∃ i2 ps2, findDefinedServices entries fs = .error (.multipleResourceFiles i2 ps2) ∧
      selectServices entries fs ctrl filters res0 = .error (.multipleResourceFiles i2 ps2) := by
  obtain ⟨i2, ps2, he⟩ := findDefined_multi_error htarget hlen hread
  exact ⟨i2, ps2, he, selectServices_find_error he⟩

theorem c5_multiple_manifests_global_witness :
    ∃ i2 ps2,
      findDefinedServices [(idA, ["a.yaml"]), (idB, ["b1.yaml", "b2.yaml"])] fsAB =
        .error (.multipleResourceFiles i2 ps2) ∧
      selectServices [(idA, ["a.yaml"]), (idB, ["b1.yaml", "b2.yaml"])] fsAB clusterA []
        emptyResult = .error (.multipleResourceFiles i2 ps2) :=
  c5_multiple_manifests_global [(idA, ["a.yaml"]), (idB, ["b1.yaml", "b2.yaml"])] fsAB
    clusterA [] emptyResult idB ["b1.yaml", "b2.yaml"] (by decide) (by decide)
    (by
      intro i p hm
      rcases List.mem_cons.mp hm with he | hm2
      · have h2 := congrArg Prod.snd he
        simp only [List.cons.injEq, and_true] at h2
        rw [h2]
        decide
      · rcases List.mem_cons.mp hm2 with he | hm3
        · have h2 := congrArg Prod.snd he
          simp at h2
        · cases hm3)

/-- C6: lock discipline. The checkout reads of FindDefinedServices and
ServicesWithPolicies happen between acquiring and releasing the shared
read lock, the stats and writes of WriteUpdates happen between acquiring
and releasing the exclusive write lock, and every operation's trace is
accepted by the lock automaton starting and ending unlocked (the deferred
unlock runs on every return path). -/
theorem c6_lock_discipline :
    (∀ (entries : List (ResourceID × List String)) (fs : FileSystem) (dir : String),
      disciplined (findDefinedServicesEv entries fs dir).2 = true) ∧
    (∀ (updates : List ControllerUpdate) (fs : FileSystem),
      disciplined (writeUpdatesEv updates fs).2 = true) ∧
    (∀ (α : Type) (swp : String → α) (dir : String),
      disciplined (servicesWithPoliciesEv swp dir).2 = true) := by
  refine ⟨?_, ?_, ?_⟩
  · intro entries fs dir
    show disciplined (.rlock :: .readEv dir :: (findDefinedReads fs entries ++ [.runlock])) = true
    have hsplit : Ev.rlock :: Ev.readEv dir :: (findDefinedReads fs entries ++ [Ev.runlock]) =
        Ev.rlock :: ((Ev.readEv dir :: findDefinedReads fs entries) ++ [Ev.runlock]) := by
      simp
    rw [hsplit]
    apply disciplined_wrap_reads
    intro e he
    rcases List.mem_cons.mp he with rfl | he2
    · exact ⟨dir, rfl⟩
    · exact findDefinedReads_shape fs entries e he2
  · intro updates fs
    show disciplined (.wlock :: (writeUpdatesEvents fs updates ++ [.wunlock])) = true
    exact disciplined_wrap_writes (writeUpdatesEvents_shape fs updates)
  · intro α swp dir
    show disciplined [.rlock, .readEv dir, .runlock] = true
    have hsplit : [Ev.rlock, Ev.readEv dir, Ev.runlock] =
        Ev.rlock :: ([Ev.readEv dir] ++ [Ev.runlock]) := rfl
    rw [hsplit]
    apply disciplined_wrap_reads
    intro e he
    rcases List.mem_cons.mp he with rfl | he2
    · exact ⟨dir, rfl⟩
    · cases he2

/-- C7: WriteUpdates overwrites the file at each update's manifest path
with that update's manifest bytes, keeping the mode found by stat; when a
stat fails it returns that error, the failing file is the first one
missing, and the files written before it remain written (the returned
checkout equals the one produced by writing the error-free front of the
list); no cross-file rollback happens. -/
theorem c7_write_updates (updates : List ControllerUpdate) (fs : FileSystem)
    (hn : (updates.map (fun u => u.manifestPath)).Nodup) :
    (∀ fsF : FileSystem, writeUpdates updates fs = (.ok (), fsF) →
      ∀ u ∈ updates, ∃ mode old, fs u.manifestPath = some (mode, old) ∧
        fsF u.manifestPath = some (mode, u.manifestBytes)) ∧
    (∀ (e : WriteError) (fsF : FileSystem), writeUpdates updates fs = (.error e, fsF) →
      ∃ front u rest2, updates = front ++ u :: rest2 ∧ e = .statErr u.manifestPath ∧
        fsF u.manifestPath = none ∧ writeUpdates front fs = (.ok (), fsF)) :=
  ⟨fun _ h => writeUpdates_ok_mem hn h, fun _ _ h => writeUpdates_error_shape h⟩

theorem c7_write_updates_witness :
    ∃ mode old, fsAB updA.manifestPath = some (mode, old) ∧
      (writeUpdates [updA, updB] fsAB).2 updA.manifestPath =
        some (mode, updA.manifestBytes) :=
  (c7_write_updates [updA, updB] fsAB (by decide)).1
    (writeUpdates [updA, updB] fsAB).2 rfl updA (by decide)

/-- C8: parse-before-work on release submission. If parsing the form, any
service spec, the image spec, the release kind, or any exclude ID fails,
the update-images handler answers 400 (a user error) and the service's
UpdateImages is not invoked; when the form parses and every parse
succeeds, UpdateImages is invoked with the assembled ReleaseSpec and
Cause. -/
theorem c8_parse_before_work (P : Parsers) (svc : ReleaseSpec → Cause → Except String String)
    (r : UpdateImagesRequest) :
    ((r.formOk = false ∨ (∃ s ∈ r.services, ∃ e, P.parseResourceSpec s = .error e) ∨
      (∃ e, P.parseImageSpec r.image = .error e) ∨
      (∃ e, P.parseReleaseKind r.kind = .error e) ∨
      (∃ x ∈ r.excludes, ∃ e, P.parseResourceID x = .error e)) →
      (∃ m, (updateImagesHandler P svc r).1 = .badRequest m) ∧
      (updateImagesHandler P svc r).1.statusCode = some 400 ∧
      (updateImagesHandler P svc r).2 = none) ∧
    (∀ specs img k exs, r.formOk = true →
      parseAll P.parseResourceSpec r.services = .ok specs →
      P.parseImageSpec r.image = .ok img →
      P.parseReleaseKind r.kind = .ok k →
      parseAll P.parseResourceID r.excludes = .ok exs →
      (updateImagesHandler P svc r).2 =
        some ({ serviceSpecs := specs, imageSpec := img, kind := k, excludes := exs },
          { user := r.user, message := r.message })) := by
  constructor
  · intro hfail
    by_cases hform : r.formOk = false
    · have hred : updateImagesHandler P svc r = (.badRequest ("parsing form"), none) := by
        simp [updateImagesHandler, hform]
      rw [hred]
      exact ⟨⟨_, rfl⟩, rfl, rfl⟩
    · have hform2 : r.formOk = true := by
        cases hfo : r.formOk
        · exact absurd hfo hform
        · rfl
      cases hsvAll : parseAll P.parseResourceSpec r.services with
      | error e2 =>
        have hred : updateImagesHandler P svc r = (.badRequest e2, none) := by
          simp [updateImagesHandler, hform2, hsvAll]
        rw [hred]
        exact ⟨⟨_, rfl⟩, rfl, rfl⟩
      | ok specs =>
        cases himg : P.parseImageSpec r.image with
        | error e2 =>
          have hred : updateImagesHandler P svc r = (.badRequest e2, none) := by
            simp [updateImagesHandler, hform2, hsvAll, himg]
          rw [hred]
          exact ⟨⟨_, rfl⟩, rfl, rfl⟩
        | ok img =>
          cases hk : P.parseReleaseKind r.kind with
          | error e2 =>
            have hred : updateImagesHandler P svc r = (.badRequest e2, none) := by
              simp [updateImagesHandler, hform2, hsvAll, himg, hk]
            rw [hred]
            exact ⟨⟨_, rfl⟩, rfl, rfl⟩
          | ok k =>
            cases hexAll : parseAll P.parseResourceID r.excludes with
            | error e2 =>
              have hred : updateImagesHandler P svc r = (.badRequest e2, none) := by
                simp [updateImagesHandler, hform2, hsvAll, himg, hk, hexAll]
              rw [hred]
              exact ⟨⟨_, rfl⟩, rfl, rfl⟩
            | ok exs =>
              exfalso
              rcases hfail with hf | ⟨s0, hs0, he0⟩ | ⟨e0, he0⟩ | ⟨e0, he0⟩ | ⟨x0, hx0, he0⟩
              · rw [hform2] at hf
                cases hf
              · obtain ⟨e3, h3⟩ := parseAll_error_of_mem hs0 he0
                rw [hsvAll] at h3
                cases h3
              · rw [himg] at he0
                cases he0
              · rw [hk] at he0
                cases he0
              · obtain ⟨e3, h3⟩ := parseAll_error_of_mem hx0 he0
                rw [hexAll] at h3
                cases h3
  · intro specs img k exs hform h1 h2 h3 h4
    have hred : (updateImagesHandler P svc r).2 =
        some ({ serviceSpecs := specs, imageSpec := img, kind := k, excludes := exs },
          { user := r.user, message := r.message }) := by
      cases hsvc : svc { serviceSpecs := specs, imageSpec := img, kind := k, excludes := exs }
          { user := r.user, message := r.message } with
      | error e => simp [updateImagesHandler, hform, h1, h2, h3, h4, hsvc]
      | ok jid => simp [updateImagesHandler, hform, h1, h2, h3, h4, hsvc]
    exact hred

theorem c8_parse_before_work_witness :
    ((updateImagesHandler failImageParsers svcOk reqSample).1.statusCode = some 400 ∧
      (updateImagesHandler failImageParsers svcOk reqSample).2 = none) ∧
    (updateImagesHandler okParsers svcOk reqSample).2 = some (specSample, causeSample) := by
  constructor
  · have h := (c8_parse_before_work failImageParsers svcOk reqSample).1
      (Or.inr (Or.inr (Or.inl ⟨"alpine:latest", rfl⟩)))
    exact ⟨h.2.1, h.2.2⟩
  · exact (c8_parse_before_work okParsers svcOk reqSample).2
      ["default:deployment/a"] "alpine:latest" "plan" [] rfl rfl rfl rfl rfl
